import Mathlib

/-!
Verification of the pr-labeler repository: a GitHub action that
(a) synchronizes organization team membership against a declarative team-data
file and (b) labels pull requests from file-path glob rules and team
membership.  The definitions below are shallow embeddings of the TypeScript
source functions; theorems check the specification's claims against them.
-/

namespace PrLabeler

/-- One side-effecting membership operation issued by the team-sync
orchestrator (`synchronizeTeamData` / `createTeamWithNoMembers`). -/
inductive Action where
  | create (team : String)
  | remove (team : String) (user : String)
  | add (team : String) (user : String)
deriving DecidableEq, Repr

/-- The usernames added on the update path: `synchronizeTeamData` iterates
`desiredMembers` and adds each one not contained in `existingMembers`. -/
def diffToAdd (desiredMembers existingMembers : List String) : List String :=
  desiredMembers.filter (fun username => !(existingMembers.contains username))

/-- The usernames removed on the update path: `synchronizeTeamData` iterates
`existingMembers` and removes each one not contained in `desiredMembers`. -/
def diffToRemove (desiredMembers existingMembers : List String) : List String :=
  existingMembers.filter (fun username => !(desiredMembers.contains username))

/-- The ordered list of membership operations `synchronizeTeamData` issues for
one team.  When `existingTeam` is present it removes stale members and then
adds missing ones; when absent it calls `createTeamWithNoMembers` (create the
team, then unconditionally remove the authenticated creator) and then adds
every desired member not in `existingMembers` (which is `[]` on that path). -/
def syncTeamActions (teamSlug : String) (desiredMembers : List String)
    (existingTeam : Option String) (existingMembers : List String)
    (authenticatedUserLogin : String) : List Action :=
  (match existingTeam with
   | some _ =>
       (diffToRemove desiredMembers existingMembers).map
         (fun username => Action.remove teamSlug username)
   | none =>
       [Action.create teamSlug, Action.remove teamSlug authenticatedUserLogin])
  ++ (diffToAdd desiredMembers existingMembers).map
       (fun username => Action.add teamSlug username)

/-- Modelled from the spec: the external system's membership semantics, which
is not part of this repository.  Team creation implicitly grants the creator
membership; adding an existing member and removing an absent one are no-ops.
`none` is the absent-team state. -/
def applyAction (creator : String) (state : Option (List String)) :
    Action → Option (List String)
  | Action.create _ => some [creator]
  | Action.remove _ username =>
      state.map (fun members => members.filter (fun m => m ≠ username))
  | Action.add _ username =>
      state.map (fun members =>
        if members.contains username then members else members ++ [username])

/-- Modelled from the spec: running a sequence of membership operations
against the external system, starting from a team state. -/
def applyActions (creator : String) (state : Option (List String))
    (actions : List Action) : Option (List String) :=
  actions.foldl (applyAction creator) state

/-- Outcome of one collaborator API call in `getExistingTeamAndMembers`. -/
inductive ApiError where
  | notFound
  | other (msg : String)
deriving DecidableEq, Repr

/-- `getExistingTeamAndMembers`: tries `teams.getByName` and then
`teams.listMembersInOrg`; a single catch-all turns ANY failure of either call
into `(null, [])`.  `existingMembers` starts as `[]` and is only assigned on
the fully successful path. -/
def getExistingTeamAndMembers (getByNameResult : Except ApiError String)
    (listMembersResult : Except ApiError (List String)) :
    Option String × List String :=
  match getByNameResult with
  | Except.error _ => (none, [])
  | Except.ok teamData =>
      match listMembersResult with
      | Except.error _ => (none, [])
      | Except.ok members => (some teamData, members)

/-- One token of a single path-segment glob pattern. -/
inductive GTok where
  | lit (c : Char)
  | star
  | qmark
  | cls (neg : Bool) (ranges : List (Char × Char))
deriving DecidableEq, Repr

/-- Scans the body of a bracket character class (everything after `[` and an
optional negation marker) up to the closing `]`, collecting ranges
(fuel-indexed; the fuel is the input length plus one, sufficient because
every step consumes at least one char). -/
def scanRangesGo : Nat → List Char → List (Char × Char) →
    Option (List (Char × Char) × List Char)
  | 0, _, _ => none
  | _ + 1, [], _ => none
  | _ + 1, ']' :: rest, acc => some (acc.reverse, rest)
  | fuel + 1, a :: '-' :: b :: rest, acc =>
      if b = ']' then scanRangesGo fuel (b :: rest) (('-', '-') :: (a, a) :: acc)
      else scanRangesGo fuel rest ((a, b) :: acc)
  | fuel + 1, a :: rest, acc => scanRangesGo fuel rest ((a, a) :: acc)

/-- Scans a bracket character class body up to the closing `]`. -/
def scanRanges (cs : List Char) (acc : List (Char × Char)) :
    Option (List (Char × Char) × List Char) :=
  scanRangesGo (cs.length + 1) cs acc

/-- Parses a bracket character class body, handling a leading `!` or `^`
negation marker. -/
def scanClass (cs : List Char) :
    Option (Bool × List (Char × Char) × List Char) :=
  match cs with
  | '!' :: rest =>
      (scanRanges rest []).map (fun p => (true, p.1, p.2))
  | '^' :: rest =>
      (scanRanges rest []).map (fun p => (true, p.1, p.2))
  | _ => (scanRanges cs []).map (fun p => (false, p.1, p.2))

/-- Tokenizes one path-segment glob pattern (fuel-indexed; the fuel is the
input length, sufficient because every step consumes at least one char). -/
def parseSegGo : Nat → List Char → List GTok
  | 0, _ => []
  | _ + 1, [] => []
  | fuel + 1, '*' :: rest => GTok.star :: parseSegGo fuel rest
  | fuel + 1, '?' :: rest => GTok.qmark :: parseSegGo fuel rest
  | fuel + 1, '[' :: rest =>
      match scanClass rest with
      | some (neg, ranges, rest2) => GTok.cls neg ranges :: parseSegGo fuel rest2
      | none => GTok.lit '[' :: parseSegGo fuel rest
  | fuel + 1, c :: rest => GTok.lit c :: parseSegGo fuel rest

/-- Tokenizes one path-segment glob pattern. -/
def parseSeg (cs : List Char) : List GTok :=
  parseSegGo cs.length cs

/-- Whether a character falls in one of the ranges of a character class. -/
def charInRanges (c : Char) (ranges : List (Char × Char)) : Bool :=
  ranges.any (fun r => r.1.toNat ≤ c.toNat && c.toNat ≤ r.2.toNat)

/-- Matches one tokenized glob segment against the characters of one path
segment: `*` matches any run of characters, `?` exactly one, a class one
character in (or, negated, out of) its ranges (fuel-indexed; every recursive
call decreases the combined length of pattern and string, so fuel equal to
that sum plus one is sufficient). -/
def matchToksGo : Nat → List GTok → List Char → Bool
  | 0, _, _ => false
  | _ + 1, [], [] => true
  | _ + 1, [], _ :: _ => false
  | fuel + 1, GTok.star :: ps, [] => matchToksGo fuel ps []
  | fuel + 1, GTok.star :: ps, c :: cs =>
      matchToksGo fuel ps (c :: cs) || matchToksGo fuel (GTok.star :: ps) cs
  | fuel + 1, GTok.qmark :: ps, _ :: cs => matchToksGo fuel ps cs
  | _ + 1, GTok.qmark :: _, [] => false
  | fuel + 1, GTok.cls neg ranges :: ps, c :: cs =>
      (charInRanges c ranges != neg) && matchToksGo fuel ps cs
  | _ + 1, GTok.cls _ _ :: _, [] => false
  | fuel + 1, GTok.lit a :: ps, c :: cs => a == c && matchToksGo fuel ps cs
  | _ + 1, GTok.lit _ :: _, [] => false

/-- Matches one tokenized glob segment against one path segment. -/
def matchToks (p : List GTok) (s : List Char) : Bool :=
  matchToksGo (p.length + s.length + 1) p s

/-- Splits a path or pattern string at `/` separators. -/
def splitPathAux : List Char → List Char → List String
  | [], acc => [String.mk acc.reverse]
  | '/' :: rest, acc => String.mk acc.reverse :: splitPathAux rest []
  | c :: rest, acc => splitPathAux rest (c :: acc)

/-- Splits a path or pattern string at `/` separators. -/
def splitPath (s : String) : List String :=
  splitPathAux s.toList []

/-- Matches a list of glob pattern segments against a list of path segments:
a `**` segment matches zero or more whole path segments, any other pattern
segment matches exactly one path segment via `matchToks` (fuel-indexed; every
recursive call decreases the combined number of segments, so fuel equal to
that sum plus one is sufficient). -/
def matchSegsGo : Nat → List String → List String → Bool
  | 0, _, _ => false
  | _ + 1, [], [] => true
  | _ + 1, [], _ :: _ => false
  | fuel + 1, p :: ps, [] => if p = "**" then matchSegsGo fuel ps [] else false
  | fuel + 1, p :: ps, d :: ds =>
      if p = "**" then matchSegsGo fuel ps (d :: ds) || matchSegsGo fuel (p :: ps) ds
      else matchToks (parseSeg p.toList) d.toList && matchSegsGo fuel ps ds

/-- Matches glob pattern segments against path segments. -/
def matchSegs (p : List String) (s : List String) : Bool :=
  matchSegsGo (p.length + s.length + 1) p s

/-- Modelled from the spec: the `Minimatch` glob matcher used by `checkGlobs`
is an external library, not code of this repository; the spec prescribes
shell-glob semantics (`*`, `**`, `?`, character classes) against the full
repository-relative path. -/
def globMatch (pattern file : String) : Bool :=
  matchSegs (splitPath pattern) (splitPath file)

/-- `checkGlobs`: returns true when any of the rule's glob patterns matches
any of the changed files (nested loops with early return in the source). -/
def checkGlobs (changedFiles : List String) (globs : List String) : Bool :=
  globs.any (fun glob => changedFiles.any (fun changedFile => globMatch glob changedFile))

/-- The glob-classification loop of `run` (lines 81-87): for each
label → globs entry, the label is pushed exactly when `checkGlobs` holds. -/
def classify (changedFiles : List String)
    (labelGlobs : List (String × List String)) : List String :=
  labelGlobs.filterMap
    (fun lg => if checkGlobs changedFiles lg.2 then some lg.1 else none)

/-- `getTeamLabel`: collects every label whose member list contains the
author, in configuration order. -/
def getTeamLabel (labelsConfiguration : List (String × List String))
    (author : String) : List String :=
  labelsConfiguration.filterMap
    (fun entry => if entry.2.contains author then some entry.1 else none)

/-- `getPrAuthor`: the event payload's pull request is modelled as an
optional author login; when absent the function returns the literal string
`unknown` rather than failing. -/
def getPrAuthor (pullRequest : Option String) : String :=
  match pullRequest with
  | none => "unknown"
  | some login => login

/-- One decoded element of a configured array value: the decoder can put a
string or any other scalar (modelled by a number) into an array, and the
source's `instanceof Array` check never inspects the elements. -/
inductive JElem where
  | str (v : String)
  | num (n : Int)
deriving DecidableEq, Repr

/-- A decoded YAML value sitting under one label key of
`file_pattern_labels`: a string, an array (of arbitrary decoded elements),
or something else (e.g. a number). -/
inductive JVal where
  | s (v : String)
  | arr (vs : List JElem)
  | num (n : Int)
deriving DecidableEq, Repr

/-- The error message `getLabelGlobMapFromObject` throws for a label whose
configured value is neither a string nor an array. -/
def labelGlobErrorMessage (label : String) : String :=
  "found unexpected type for label " ++ label ++
    " (should be string or array of globs)"

/-- `getLabelGlobMapFromObject`: wraps a string value in a one-element
array and passes an array value through UNCHANGED — `instanceof Array`
checks nothing about the elements — throwing at the first label whose value
is neither a string nor an array. -/
def getLabelGlobMapFromObject :
    List (String × JVal) → Except String (List (String × List JElem))
  | [] => Except.ok []
  | (label, JVal.s glob) :: rest =>
      (getLabelGlobMapFromObject rest).map
        (fun m => (label, [JElem.str glob]) :: m)
  | (label, JVal.arr globs) :: rest =>
      (getLabelGlobMapFromObject rest).map (fun m => (label, globs) :: m)
  | (label, JVal.num _) :: _ => Except.error (labelGlobErrorMessage label)

/-- Whether a configured label value has one of the two shapes the
source's `typeof` / `instanceof Array` tests accept: any string, or any
array regardless of its element types. -/
def isGlobValue : JVal → Bool
  | JVal.s _ => true
  | JVal.arr _ => true
  | JVal.num _ => false

/-- One pull-request side effect issued by `run`. -/
inductive PrAction where
  | close
  | applyLabels (labels : List String)
  | reopen
deriving DecidableEq, Repr

/-- `shouldCloseAndReopenIssue` in `run`: true when the team-derived label
list (`additionalLabels`) is non-empty. -/
def shouldCloseAndReopenIssue (additionalLabels : List String) : Bool :=
  decide (additionalLabels.length > 0)

/-- The ordered pull-request side effects issued by `run` (lines 89-113):
close when the reopen cycle is required, apply the combined labels when
non-empty, reopen when the reopen cycle is required. -/
def decideActions (globLabels teamLabels : List String) : List PrAction :=
  let labels := globLabels ++ teamLabels
  (if shouldCloseAndReopenIssue teamLabels then [PrAction.close] else []) ++
  (if decide (labels.length > 0) then [PrAction.applyLabels labels] else []) ++
  (if shouldCloseAndReopenIssue teamLabels then [PrAction.reopen] else [])

/-- Position of a pull-request side effect in the order the source issues
them: close first, then the label application, then reopen. -/
def prActionRank : PrAction → Nat
  | PrAction.close => 0
  | PrAction.applyLabels _ => 1
  | PrAction.reopen => 2

/-- The combined label list `run` builds: the glob-classification results
followed by the team-derived labels pushed one by one (lines 81-90). -/
def combinedLabels (changedFiles : List String)
    (labelGlobs : List (String × List String))
    (teamLabelsToMembers : List (String × List String))
    (pullRequest : Option String) : List String :=
  classify changedFiles labelGlobs ++
    getTeamLabel teamLabelsToMembers (getPrAuthor pullRequest)

/-- The per-label transformation in `addLabels`:
`l.replace(/#/g, '')` removes every `#` character. -/
def stripHash (s : String) : String :=
  String.mk (s.toList.filter (fun c => c ≠ '#'))

/-- The label list `addLabels` actually sends to the API. -/
def addLabelsPayload (labels : List String) : List String :=
  labels.map stripHash

/-- Modelled from the spec: `checkGlobs` hands each normalized rule value
to the external Minimatch collaborator, which the spec specifies only for
glob pattern strings; a non-string element is modelled as matching no
file. -/
def globElemMatch : JElem → String → Bool
  | JElem.str g, f => globMatch g f
  | JElem.num _, _ => false

/-- `checkGlobs` over the unvalidated normalized rule values: any element
matching any changed file. -/
def checkGlobsElems (changedFiles : List String) (globs : List JElem) : Bool :=
  globs.any (fun glob =>
    changedFiles.any (fun changedFile => globElemMatch glob changedFile))

/-- The glob-classification loop of `run` over the normalized (and
element-unvalidated) label → rule-value map. -/
def classifyElems (changedFiles : List String)
    (labelGlobs : List (String × List JElem)) : List String :=
  labelGlobs.filterMap
    (fun lg => if checkGlobsElems changedFiles lg.2 then some lg.1 else none)

/-- The labeling run end to end: configuration normalization happens before
any side effect, so a configuration error aborts the run with no actions
issued; otherwise the side effects of `run` are produced in order. -/
def runPipeline (config : List (String × JVal)) (changedFiles : List String)
    (teamLabelsToMembers : List (String × List String))
    (pullRequest : Option String) : Except String (List PrAction) :=
  match getLabelGlobMapFromObject config with
  | Except.error e => Except.error e
  | Except.ok labelGlobs =>
      Except.ok (decideActions (classifyElems changedFiles labelGlobs)
        (getTeamLabel teamLabelsToMembers (getPrAuthor pullRequest)))

/-! ## Theorems -/

theorem mem_diffToAdd (desired current : List String) (u : String) :
    u ∈ diffToAdd desired current ↔ u ∈ desired ∧ u ∉ current := by
  simp [diffToAdd]

theorem mem_diffToRemove (desired current : List String) (u : String) :
    u ∈ diffToRemove desired current ↔ u ∈ current ∧ u ∉ desired := by
  simp [diffToRemove]

theorem diffToAdd_self (s : List String) : diffToAdd s s = [] := by
  simp [diffToAdd]

theorem diffToRemove_self (s : List String) : diffToRemove s s = [] := by
  simp [diffToRemove]

/-- C1: the membership reconciliation computes toAdd = desired minus current
and toRemove = current minus desired; the two are disjoint; on the update
path the add/remove actions issued are exactly those of the diff, so a
username in neither set is untouched; diff of a set against itself is empty,
so re-running reconciliation on an already-converged team issues no
membership operations. -/
theorem membership_diff_correct (teamSlug teamData creator : String)
    (desired current s : List String) (u : String) :
    (u ∈ diffToAdd desired current ↔ u ∈ desired ∧ u ∉ current) ∧
    (u ∈ diffToRemove desired current ↔ u ∈ current ∧ u ∉ desired) ∧
    (¬(u ∈ diffToAdd desired current ∧ u ∈ diffToRemove desired current)) ∧
    diffToAdd s s = [] ∧ diffToRemove s s = [] ∧
    (Action.add teamSlug u ∈
        syncTeamActions teamSlug desired (some teamData) current creator ↔
      u ∈ diffToAdd desired current) ∧
    (Action.remove teamSlug u ∈
        syncTeamActions teamSlug desired (some teamData) current creator ↔
      u ∈ diffToRemove desired current) ∧
    syncTeamActions teamSlug s (some teamData) s creator = [] := by
  refine ⟨mem_diffToAdd _ _ _, mem_diffToRemove _ _ _, ?_,
    diffToAdd_self s, diffToRemove_self s, ?_, ?_, ?_⟩
  · rw [mem_diffToAdd, mem_diffToRemove]
    tauto
  · simp [syncTeamActions, mem_diffToAdd, mem_diffToRemove]
  · simp [syncTeamActions, mem_diffToAdd, mem_diffToRemove]
  · simp [syncTeamActions, diffToAdd_self, diffToRemove_self]

/-- C3 counterexample: with the creator itself a desired member
(desired = ["alice"], creator = "alice"), the creation path still issues an
explicit removal of the creator, contradicting "removed unless it is itself
a desired member". -/
theorem creation_removes_creator_even_if_desired :
    "alice" ∈ ["alice"] ∧
    Action.remove "t" "alice" ∈ syncTeamActions "t" ["alice"] none [] "alice" := by
  decide

/-- C3 amended: on the creation path the creating identity is removed
unconditionally, even when it is a desired member (in which case it is
re-added by the subsequent add loop); on the update path a removal of the
creator arises only as an ordinary stale-member removal; for the scenario
desired = ["alice"], creator = "svc-bot", the issued actions leave final
membership exactly ["alice"] (and the same final membership results even
when the creator is "alice"). -/
theorem creation_path_creator_removal
    (teamSlug teamData creator u : String) (desired existing : List String) :
    Action.remove teamSlug creator ∈
      syncTeamActions teamSlug desired none [] creator ∧
    (Action.remove teamSlug u ∈
        syncTeamActions teamSlug desired (some teamData) existing creator ↔
      u ∈ existing ∧ u ∉ desired) ∧
    applyActions "svc-bot" none
      (syncTeamActions "t" ["alice"] none [] "svc-bot") = some ["alice"] ∧
    applyActions "alice" none
      (syncTeamActions "t" ["alice"] none [] "alice") = some ["alice"] := by
  refine ⟨?_, ?_, by decide, by decide⟩
  · simp [syncTeamActions]
  · simp [syncTeamActions, mem_diffToRemove, mem_diffToAdd]

/-- C7 counterexample: a non-not-found failure of the get-team call (e.g. a
rate-limit error) yields the same result as the team-absent state —
`(null, [])` — instead of propagating; likewise a failure of the
list-team-members call after the team was found. -/
theorem external_error_treated_as_absent :
    getExistingTeamAndMembers
      (Except.error (ApiError.other "rate limit exceeded"))
      (Except.ok ["mona"]) = (none, []) ∧
    getExistingTeamAndMembers (Except.ok "team-data")
      (Except.error (ApiError.other "server error")) = (none, []) := by
  exact ⟨rfl, rfl⟩

/-- C7 amended: `getExistingTeamAndMembers` treats EVERY failure of the
get-team or list-team-members call — not only the absent-team condition —
as the Absent state (no team, empty member list); no error is propagated
out of this function, and only the fully successful path reports an
existing team with its members. -/
theorem getExistingTeamAndMembers_swallows_errors
    (e e2 : ApiError) (teamData : String) (members : List String)
    (listMembersResult : Except ApiError (List String)) :
    getExistingTeamAndMembers (Except.error e) listMembersResult = (none, []) ∧
    getExistingTeamAndMembers (Except.ok teamData) (Except.error e2) =
      (none, []) ∧
    getExistingTeamAndMembers (Except.ok teamData) (Except.ok members) =
      (some teamData, members) := by
  exact ⟨rfl, rfl, rfl⟩

theorem checkGlobs_eq_true_iff (changedFiles globs : List String) :
    checkGlobs changedFiles globs = true ↔
      ∃ g ∈ globs, ∃ f ∈ changedFiles, globMatch g f = true := by
  simp [checkGlobs, List.any_eq_true]

/-- C2: a rule's label is in the classification result exactly when at least
one of its glob patterns matches at least one changed file (OR across
patterns, OR across files; never AND), with shell-glob matching against the
full relative path; checked on the spec scenario docs/build. -/
theorem classify_label_iff (changedFiles : List String)
    (labelGlobs : List (String × List String)) (label : String) :
    (label ∈ classify changedFiles labelGlobs ↔
      ∃ globs, (label, globs) ∈ labelGlobs ∧
        ∃ g ∈ globs, ∃ f ∈ changedFiles, globMatch g f = true) ∧
    classify ["docs/readme.md", "action.yml"]
        [("docs", ["docs/**"]), ("build", ["*.yml", "*.yaml"])] =
      ["docs", "build"] := by
  refine ⟨?_, by decide⟩
  rw [classify, List.mem_filterMap]
  constructor
  · rintro ⟨⟨l0, globs⟩, hmem, heq⟩
    dsimp only at heq
    by_cases hc : checkGlobs changedFiles globs = true
    · rw [if_pos hc] at heq
      obtain rfl : l0 = label := Option.some.inj heq
      exact ⟨globs, hmem, (checkGlobs_eq_true_iff _ _).mp hc⟩
    · rw [if_neg hc] at heq
      exact absurd heq (Option.noConfusion)
  · rintro ⟨globs, hmem, hmatch⟩
    exact ⟨(label, globs), hmem,
      by rw [if_pos ((checkGlobs_eq_true_iff _ _).mpr hmatch)]⟩

theorem any_congr_of_perm {α : Type} (p : α → Bool) {l1 l2 : List α}
    (h : l1.Perm l2) : l1.any p = l2.any p := by
  cases hb : l2.any p with
  | true =>
      rw [List.any_eq_true] at hb ⊢
      obtain ⟨x, hx, hpx⟩ := hb
      exact ⟨x, h.mem_iff.mpr hx, hpx⟩
  | false =>
      rw [List.any_eq_false] at hb ⊢
      intro x hx
      exact hb x (h.mem_iff.mp hx)

theorem checkGlobs_congr_of_perm {files1 files2 : List String}
    (h : files1.Perm files2) (globs : List String) :
    checkGlobs files1 globs = checkGlobs files2 globs := by
  unfold checkGlobs
  congr 1
  funext glob
  exact any_congr_of_perm _ h

/-- C9: the label set computed by classify is invariant under any
permutation of the rules and any permutation of the changed files (the
result lists are permutations of each other, hence equal as sets). -/
theorem classify_perm_invariant (files1 files2 : List String)
    (rules1 rules2 : List (String × List String))
    (hf : files1.Perm files2) (hr : rules1.Perm rules2) :
    (classify files1 rules1).Perm (classify files2 rules2) ∧
    ∀ l, l ∈ classify files1 rules1 ↔ l ∈ classify files2 rules2 := by
  have hfun : classify files1 rules1 = classify files2 rules1 := by
    unfold classify
    exact List.filterMap_congr
      (fun lg _ => by rw [checkGlobs_congr_of_perm hf])
  have hperm : (classify files1 rules1).Perm (classify files2 rules2) := by
    rw [hfun]
    exact hr.filterMap _
  exact ⟨hperm, fun l => hperm.mem_iff⟩

/-- C9 witness: a concrete instance with both the changed files and the
rules reordered. -/
theorem classify_perm_invariant_witness :
    (classify ["a.md", "b.yml"] [("x", ["*.md"]), ("y", ["*.yml"])]).Perm
      (classify ["b.yml", "a.md"] [("y", ["*.yml"]), ("x", ["*.md"])]) ∧
    ("x" ∈ classify ["a.md", "b.yml"] [("x", ["*.md"]), ("y", ["*.yml"])] ↔
      "x" ∈ classify ["b.yml", "a.md"] [("y", ["*.yml"]), ("x", ["*.md"])]) := by
  have h := classify_perm_invariant ["a.md", "b.yml"] ["b.yml", "a.md"]
    [("x", ["*.md"]), ("y", ["*.yml"])] [("y", ["*.yml"]), ("x", ["*.md"])]
    (List.Perm.swap "b.yml" "a.md" []) (List.Perm.swap ("y", ["*.yml"]) ("x", ["*.md"]) [])
  exact ⟨h.1, h.2 "x"⟩

/-- C4: the reopen cycle is required exactly when the team-derived label
list is non-empty (glob labels alone never trigger it); the label-apply
call is issued exactly when the combined label list is non-empty, and then
carries exactly the combined labels; the side effects are ordered
close, then apply labels, then reopen. -/
theorem decide_actions_spec (globLabels teamLabels ls : List String) :
    (shouldCloseAndReopenIssue teamLabels = true ↔ teamLabels ≠ []) ∧
    (PrAction.close ∈ decideActions globLabels teamLabels ↔ teamLabels ≠ []) ∧
    (PrAction.reopen ∈ decideActions globLabels teamLabels ↔ teamLabels ≠ []) ∧
    (PrAction.applyLabels ls ∈ decideActions globLabels teamLabels ↔
      globLabels ++ teamLabels ≠ [] ∧ ls = globLabels ++ teamLabels) ∧
    List.Pairwise (fun a b => prActionRank a < prActionRank b)
      (decideActions globLabels teamLabels) := by
  rcases teamLabels with _ | ⟨t, ts⟩
  · rcases globLabels with _ | ⟨g, gs⟩
    · simp [decideActions, shouldCloseAndReopenIssue]
    · simp [decideActions, shouldCloseAndReopenIssue, prActionRank]
  · rcases globLabels with _ | ⟨g, gs⟩ <;>
      simp [decideActions, shouldCloseAndReopenIssue, prActionRank, and_comm]

/-- C5 counterexample: a label that is both glob-matched and team-derived
appears twice in the combined label list and twice in the apply-labels
payload — duplicates are not collapsed. -/
theorem duplicate_label_not_collapsed :
    combinedLabels ["a.md"] [("x", ["*.md"])] [("x", ["dave"])] (some "dave") =
      ["x", "x"] ∧
    (addLabelsPayload
      (combinedLabels ["a.md"] [("x", ["*.md"])] [("x", ["dave"])]
        (some "dave"))).count "x" = 2 := by
  decide

/-- C5 amended: the labels applied are the concatenation of the glob-matched
labels and the team-derived labels: membership-wise this is their union, but
duplicates are retained, so a label that is both glob-matched and
team-derived occurs with the sum of its multiplicities in the apply-labels
call. -/
theorem combined_labels_union_multiplicity (changedFiles : List String)
    (labelGlobs teamLabelsToMembers : List (String × List String))
    (pullRequest : Option String) (l : String) :
    (l ∈ combinedLabels changedFiles labelGlobs teamLabelsToMembers pullRequest ↔
      l ∈ classify changedFiles labelGlobs ∨
        l ∈ getTeamLabel teamLabelsToMembers (getPrAuthor pullRequest)) ∧
    (combinedLabels changedFiles labelGlobs teamLabelsToMembers
        pullRequest).count l =
      (classify changedFiles labelGlobs).count l +
        (getTeamLabel teamLabelsToMembers (getPrAuthor pullRequest)).count l := by
  constructor
  · simp [combinedLabels]
  · simp [combinedLabels, List.count_append]

/-- C8 counterexample: with no associated pull request the author falls back
to the literal string "unknown", so a team-label map that lists "unknown" as
a member makes resolveLabels return a non-empty result. -/
theorem unknown_author_matches_literal_member :
    getTeamLabel [("infra", ["unknown"])] (getPrAuthor none) = ["infra"] ∧
    getTeamLabel [("infra", ["unknown"])] (getPrAuthor none) ≠ [] := by
  decide

/-- C8 amended: when the author cannot be determined it is replaced by the
literal username "unknown" and no error is raised; the result is then
exactly the set of labels whose member list contains the string "unknown"
(empty unless some team lists "unknown" as a member). -/
theorem missing_author_treated_as_unknown
    (teamLabelsToMembers : List (String × List String)) (l : String) :
    getPrAuthor none = "unknown" ∧
    (l ∈ getTeamLabel teamLabelsToMembers (getPrAuthor none) ↔
      ∃ p ∈ teamLabelsToMembers, p.1 = l ∧ "unknown" ∈ p.2) := by
  refine ⟨rfl, ?_⟩
  have hga : getPrAuthor none = "unknown" := rfl
  rw [hga, getTeamLabel, List.mem_filterMap]
  constructor
  · rintro ⟨⟨l0, members⟩, hmem, heq⟩
    dsimp only at heq
    by_cases hc : members.contains "unknown" = true
    · rw [if_pos hc] at heq
      exact ⟨(l0, members), hmem, Option.some.inj heq,
        by simpa using hc⟩
    · rw [if_neg hc] at heq
      exact absurd heq (Option.noConfusion)
  · rintro ⟨⟨l0, members⟩, hmem, hl, hunk⟩
    dsimp only at hl hunk
    refine ⟨(l0, members), hmem, ?_⟩
    dsimp only
    rw [if_pos (by simpa using hunk), hl]

theorem getLabelGlobMap_error_of_malformed (config : List (String × JVal))
    (h : ∃ p ∈ config, isGlobValue p.2 = false) :
    ∃ label v, (label, v) ∈ config ∧ isGlobValue v = false ∧
      getLabelGlobMapFromObject config =
        Except.error (labelGlobErrorMessage label) := by
  induction config with
  | nil => simp at h
  | cons hd tl ih =>
      obtain ⟨l0, v0⟩ := hd
      cases v0 with
      | s glob =>
          have h2 : ∃ p ∈ tl, isGlobValue p.2 = false := by
            rcases h with ⟨p, hp, hbad⟩
            rcases List.mem_cons.mp hp with heq | htl
            · rw [heq] at hbad
              exact absurd hbad (by simp [isGlobValue])
            · exact ⟨p, htl, hbad⟩
          obtain ⟨label, v, hmem, hbad, herr⟩ := ih h2
          refine ⟨label, v, List.mem_cons_of_mem _ hmem, hbad, ?_⟩
          rw [getLabelGlobMapFromObject, herr]
          rfl
      | arr globs =>
          have h2 : ∃ p ∈ tl, isGlobValue p.2 = false := by
            rcases h with ⟨p, hp, hbad⟩
            rcases List.mem_cons.mp hp with heq | htl
            · rw [heq] at hbad
              exact absurd hbad (by simp [isGlobValue])
            · exact ⟨p, htl, hbad⟩
          obtain ⟨label, v, hmem, hbad, herr⟩ := ih h2
          refine ⟨label, v, List.mem_cons_of_mem _ hmem, hbad, ?_⟩
          rw [getLabelGlobMapFromObject, herr]
          rfl
      | num n =>
          exact ⟨l0, JVal.num n, List.mem_cons_self _ _, rfl, rfl⟩

theorem getLabelGlobMap_ok_of_accepted_shapes (config : List (String × JVal))
    (h : ∀ p ∈ config, isGlobValue p.2 = true) :
    ∃ m, getLabelGlobMapFromObject config = Except.ok m := by
  induction config with
  | nil => exact ⟨[], rfl⟩
  | cons hd tl ih =>
      obtain ⟨l0, v0⟩ := hd
      have htl : ∀ p ∈ tl, isGlobValue p.2 = true :=
        fun p hp => h p (List.mem_cons_of_mem _ hp)
      obtain ⟨m, hm⟩ := ih htl
      cases v0 with
      | s glob =>
          exact ⟨(l0, [JElem.str glob]) :: m,
            by rw [getLabelGlobMapFromObject, hm]; rfl⟩
      | arr globs =>
          exact ⟨(l0, globs) :: m,
            by rw [getLabelGlobMapFromObject, hm]; rfl⟩
      | num n =>
          have hn := h (l0, JVal.num n) (List.mem_cons_self _ _)
          exact absurd hn (by simp [isGlobValue])

/-- C6 counterexample: an array of numbers is neither a string nor a
sequence of strings, yet the `instanceof Array` test accepts it:
normalization passes it through unchanged and never raises the error
naming the label "x". -/
theorem array_of_numbers_not_rejected :
    getLabelGlobMapFromObject [("x", JVal.arr [JElem.num 1, JElem.num 2])] =
      Except.ok [("x", [JElem.num 1, JElem.num 2])] ∧
    getLabelGlobMapFromObject [("x", JVal.arr [JElem.num 1, JElem.num 2])] ≠
      Except.error (labelGlobErrorMessage "x") :=
  ⟨rfl, fun h => Except.noConfusion h⟩

/-- C6 amended: when some label's configured rule value is neither a string
nor an array, the run fails fast with the error message naming an offending
label and no pull-request side effects are produced; but any array value —
regardless of its element types — is accepted without error, and the run
proceeds. -/
theorem malformed_rule_aborts_run (config : List (String × JVal))
    (changedFiles : List String)
    (teamLabelsToMembers : List (String × List String))
    (pullRequest : Option String) :
    ((∃ p ∈ config, isGlobValue p.2 = false) →
      ∃ label v, (label, v) ∈ config ∧ isGlobValue v = false ∧
        runPipeline config changedFiles teamLabelsToMembers pullRequest =
          Except.error (labelGlobErrorMessage label)) ∧
    ((∀ p ∈ config, isGlobValue p.2 = true) →
      ∃ normalized, getLabelGlobMapFromObject config = Except.ok normalized ∧
        ∃ actions,
          runPipeline config changedFiles teamLabelsToMembers pullRequest =
            Except.ok actions) := by
  constructor
  · intro h
    obtain ⟨label, v, hmem, hbad, herr⟩ :=
      getLabelGlobMap_error_of_malformed config h
    refine ⟨label, v, hmem, hbad, ?_⟩
    rw [runPipeline, herr]
  · intro h
    obtain ⟨m, hm⟩ := getLabelGlobMap_ok_of_accepted_shapes config h
    refine ⟨m, hm, ?_⟩
    rw [runPipeline, hm]
    exact ⟨_, rfl⟩

/-- C6 witness: the spec scenario — a numeric rule value for label "x"
aborts the run with the message naming "x" — and a well-formed string rule
is normalized and the run proceeds. -/
theorem malformed_rule_aborts_run_witness :
    (∃ label v, (label, v) ∈ [("x", JVal.num 3)] ∧ isGlobValue v = false ∧
      runPipeline [("x", JVal.num 3)] [] [] none =
        Except.error (labelGlobErrorMessage label)) ∧
    (∃ normalized,
      getLabelGlobMapFromObject [("docs", JVal.s "docs/**")] =
        Except.ok normalized ∧
      ∃ actions, runPipeline [("docs", JVal.s "docs/**")] [] [] none =
        Except.ok actions) :=
  ⟨(malformed_rule_aborts_run [("x", JVal.num 3)] [] [] none).1
      ⟨("x", JVal.num 3), by simp, rfl⟩,
    (malformed_rule_aborts_run [("docs", JVal.s "docs/**")] [] [] none).2
      (by decide)⟩

/-- C10: every `#` character is stripped from each label before the
apply-labels call: the payload holds the stripped form of each computed
label, the stripped form contains no `#`, and whenever a computed label
contains `#` the label actually applied differs from it. -/
theorem hash_stripped_from_labels (labels : List String) (l : String)
    (hmem : l ∈ labels) :
    stripHash l ∈ addLabelsPayload labels ∧
    (∀ c ∈ (stripHash l).toList, c ≠ '#') ∧
    ('#' ∈ l.toList → stripHash l ≠ l) := by
  refine ⟨List.mem_map_of_mem stripHash hmem, ?_, ?_⟩
  · intro c hc
    have hc2 : c ∈ l.toList.filter (fun c => decide (c ≠ '#')) := hc
    exact of_decide_eq_true (List.mem_filter.mp hc2).2
  · intro hhash heq
    have hdata : l.toList.filter (fun c => decide (c ≠ '#')) = l.toList :=
      congrArg String.toList heq
    have hall := (List.filter_eq_self.mp hdata) '#' hhash
    simp at hall

/-- C10 witness: the computed label "a#b" is applied as "ab". -/
theorem hash_stripped_from_labels_witness :
    "a#b" ∈ ["a#b"] ∧
    stripHash "a#b" ∈ addLabelsPayload ["a#b"] ∧
    stripHash "a#b" ≠ "a#b" ∧ stripHash "a#b" = "ab" :=
  ⟨by decide,
    (hash_stripped_from_labels ["a#b"] "a#b" (by decide)).1,
    (hash_stripped_from_labels ["a#b"] "a#b" (by decide)).2.2 (by decide),
    by decide⟩

end PrLabeler
